import Mathlib

/-!
Shallow embedding of `src/Core/Registration/Feature.cpp` (namespace `three`):
the FPFH feature pipeline of Open3D.  Vectors are triples of reals, the
floating-point doubles of the source are idealised as exact reals, `M_PI` is
`Real.pi`, `acos` is `Real.arccos`, and C's `atan2 y x` is the argument of the
complex number `x + y i`.
-/

noncomputable section

namespace Three

/-- A 3-dimensional real vector, modelling `Eigen::Vector3d`. -/
structure Vec3 where
  x : ℝ
  y : ℝ
  z : ℝ

instance : Sub Vec3 := ⟨fun a b => ⟨a.x - b.x, a.y - b.y, a.z - b.z⟩⟩

instance : Neg Vec3 := ⟨fun a => ⟨-a.x, -a.y, -a.z⟩⟩

theorem Vec3.sub_def (a b : Vec3) : a - b = ⟨a.x - b.x, a.y - b.y, a.z - b.z⟩ := rfl

theorem Vec3.neg_def (a : Vec3) : -a = ⟨-a.x, -a.y, -a.z⟩ := rfl

/-- Dot product, modelling `Eigen`'s `dot`. -/
def Vec3.dot (a b : Vec3) : ℝ := a.x * b.x + a.y * b.y + a.z * b.z

/-- Cross product, modelling `Eigen`'s `cross3` restricted to 3 components. -/
def Vec3.cross (a b : Vec3) : Vec3 :=
  ⟨a.y * b.z - a.z * b.y, a.z * b.x - a.x * b.z, a.x * b.y - a.y * b.x⟩

/-- Euclidean norm, modelling `Eigen`'s `norm`. -/
def Vec3.norm (a : Vec3) : ℝ := Real.sqrt (a.dot a)

/-- Scalar multiple, modelling `v /= v_norm` as `(1 / v_norm) • v`. -/
def Vec3.smul (c : ℝ) (a : Vec3) : Vec3 := ⟨c * a.x, c * a.y, c * a.z⟩

/-- The zero vector (used as the out-of-range default when indexing clouds). -/
def vzero : Vec3 := ⟨0, 0, 0⟩

/-- C's `atan2 y x`, embedded as the principal argument of `x + y i`. -/
def atan2 (y x : ℝ) : ℝ := Complex.arg ⟨x, y⟩

/-- The 4-tuple `(f1, f2, f3, distance)` returned by `ComputePairFeatures`
(`result(0) .. result(3)` in the source). -/
structure PairFeature where
  f1 : ℝ
  f2 : ℝ
  f3 : ℝ
  dist : ℝ

/-- `Eigen::Vector4d::Zero()`. -/
def PairFeature.zero : PairFeature := ⟨0, 0, 0, 0⟩

/-- The state mutated by the canonicalization branch of `ComputePairFeatures`
(Feature.cpp lines 51-58): the reference normal `n1_copy`, the other normal
`n2_copy`, the (possibly negated) direction `dp2p1`, and `result(2)`. -/
structure Canon where
  nref : Vec3
  noth : Vec3
  d : Vec3
  f3 : ℝ

/-- The canonicalization branch of `ComputePairFeatures`: swap the two oriented
points when `acos(fabs(angle1)) > acos(fabs(angle2))`, negating `dp2p1` and
setting `result(2) = -angle2`; otherwise keep them and set `result(2) = angle1`. -/
def canonicalize (n1 n2 dp2p1 : Vec3) (angle1 angle2 : ℝ) : Canon :=
  if Real.arccos |angle1| > Real.arccos |angle2| then ⟨n2, n1, -dp2p1, -angle2⟩
  else ⟨n1, n2, dp2p1, angle1⟩

/-- Embedding of `ComputePairFeatures` (Feature.cpp lines 37-69). -/
def ComputePairFeatures (p1 n1 p2 n2 : Vec3) : PairFeature :=
  let dp2p1 := p2 - p1
  let dist := dp2p1.norm
  if dist = 0 then PairFeature.zero
  else
    let angle1 := n1.dot dp2p1 / dist
    let angle2 := n2.dot dp2p1 / dist
    let c := canonicalize n1 n2 dp2p1 angle1 angle2
    let v := c.d.cross c.nref
    if v.norm = 0 then PairFeature.zero
    else
      let vu := Vec3.smul (1 / v.norm) v
      let w := c.nref.cross vu
      ⟨atan2 (w.dot c.noth) (c.nref.dot c.noth), vu.dot c.noth, c.f3, dist⟩

/-- C5: for coincident points (`p1 = p2`) `ComputePairFeatures` returns the
exact zero 4-tuple, whatever the two normals are. -/
theorem pair_features_coincident_zero (p n1 n2 : Vec3) :
    ComputePairFeatures p n1 p n2 = PairFeature.zero := by
  simp [ComputePairFeatures, Vec3.sub_def, Vec3.norm, Vec3.dot]

theorem Vec3.dot_self_nonneg (a : Vec3) : 0 ≤ a.dot a := by
  simp only [Vec3.dot]
  nlinarith [sq_nonneg a.x, sq_nonneg a.y, sq_nonneg a.z]

theorem Vec3.norm_nonneg (a : Vec3) : 0 ≤ a.norm := Real.sqrt_nonneg _

theorem Vec3.cauchy_schwarz (a b : Vec3) : (a.dot b) ^ 2 ≤ a.dot a * b.dot b := by
  simp only [Vec3.dot]
  nlinarith [sq_nonneg (a.y * b.z - a.z * b.y), sq_nonneg (a.z * b.x - a.x * b.z),
    sq_nonneg (a.x * b.y - a.y * b.x)]

theorem Vec3.abs_dot_le (a b : Vec3) : |a.dot b| ≤ a.norm * b.norm := by
  rw [Vec3.norm, Vec3.norm, ← Real.sqrt_mul (Vec3.dot_self_nonneg a), ← Real.sqrt_sq_eq_abs]
  exact Real.sqrt_le_sqrt (Vec3.cauchy_schwarz a b)

theorem Vec3.norm_neg_eq (a : Vec3) : (-a).norm = a.norm := by
  rw [Vec3.neg_def, Vec3.norm, Vec3.norm, Vec3.dot, Vec3.dot]
  ring_nf

theorem Vec3.dot_neg_right (a b : Vec3) : a.dot (-b) = -(a.dot b) := by
  rw [Vec3.neg_def, Vec3.dot, Vec3.dot]
  ring

theorem Vec3.norm_smul_eq (c : ℝ) (a : Vec3) : (Vec3.smul c a).norm = |c| * a.norm := by
  rw [Vec3.smul, Vec3.norm, Vec3.norm, Vec3.dot, Vec3.dot]
  have h : c * a.x * (c * a.x) + c * a.y * (c * a.y) + c * a.z * (c * a.z) =
      c ^ 2 * (a.x * a.x + a.y * a.y + a.z * a.z) := by ring
  rw [h, Real.sqrt_mul (sq_nonneg c), Real.sqrt_sq_eq_abs]

/-- C6: the canonicalization of `ComputePairFeatures` (lines 49-58) swaps the
two oriented points exactly when `arccos |angle1| > arccos |angle2|`, in which
case the reference normal becomes `n2`, the direction is negated and
`f3 = -angle2`; otherwise `n1` stays the reference and `f3 = angle1`.  In both
cases the chosen reference normal satisfies
`arccos |angle_reference| ≤ arccos |angle_other|` for the canonical direction. -/
theorem canonicalization_rule (p1 n1 p2 n2 d : Vec3) (a1 a2 : ℝ)
    (hd : d = p2 - p1) (h : d.norm ≠ 0)
    (ha1 : a1 = n1.dot d / d.norm) (ha2 : a2 = n2.dot d / d.norm) :
    (Real.arccos |a1| > Real.arccos |a2| →
      canonicalize n1 n2 d a1 a2 = ⟨n2, n1, -d, -a2⟩) ∧
    (¬ Real.arccos |a1| > Real.arccos |a2| →
      canonicalize n1 n2 d a1 a2 = ⟨n1, n2, d, a1⟩) ∧
    Real.arccos |(canonicalize n1 n2 d a1 a2).nref.dot (canonicalize n1 n2 d a1 a2).d /
        (canonicalize n1 n2 d a1 a2).d.norm| ≤
      Real.arccos |(canonicalize n1 n2 d a1 a2).noth.dot (canonicalize n1 n2 d a1 a2).d /
        (canonicalize n1 n2 d a1 a2).d.norm| := by
  by_cases hc : Real.arccos |a1| > Real.arccos |a2|
  · refine ⟨fun _ => by simp [canonicalize, hc], fun hn => absurd hc hn, ?_⟩
    simp only [canonicalize, if_pos hc, Vec3.dot_neg_right, Vec3.norm_neg_eq, neg_div, abs_neg]
    rw [← ha1, ← ha2]
    exact le_of_lt hc
  · refine ⟨fun hy => absurd hy hc, fun _ => by simp [canonicalize, hc], ?_⟩
    simp only [canonicalize, if_neg hc]
    rw [← ha1, ← ha2]
    exact not_lt.mp hc

/-- C7: for a non-coincident pair whose post-canonicalization reference normal
is parallel to the connecting line (the cross product of the canonical
direction with the reference normal has norm zero), `ComputePairFeatures`
returns the all-zero 4-tuple. -/
theorem parallel_normal_zero (p1 n1 p2 n2 : Vec3) (a1 a2 : ℝ)
    (ha1 : a1 = n1.dot (p2 - p1) / (p2 - p1).norm)
    (ha2 : a2 = n2.dot (p2 - p1) / (p2 - p1).norm)
    (h : (p2 - p1).norm ≠ 0)
    (hv : ((canonicalize n1 n2 (p2 - p1) a1 a2).d.cross
        (canonicalize n1 n2 (p2 - p1) a1 a2).nref).norm = 0) :
    ComputePairFeatures p1 n1 p2 n2 = PairFeature.zero := by
  subst ha1
  subst ha2
  simp only [ComputePairFeatures, if_neg h, if_pos hv]

theorem canon_noth_cases (n1 n2 d : Vec3) (a1 a2 : ℝ) :
    (canonicalize n1 n2 d a1 a2).noth = n1 ∨ (canonicalize n1 n2 d a1 a2).noth = n2 := by
  unfold canonicalize
  split
  · exact Or.inl rfl
  · exact Or.inr rfl

theorem canon_f3_cases (n1 n2 d : Vec3) (a1 a2 : ℝ) :
    (canonicalize n1 n2 d a1 a2).f3 = -a2 ∨ (canonicalize n1 n2 d a1 a2).f3 = a1 := by
  unfold canonicalize
  split
  · exact Or.inl rfl
  · exact Or.inr rfl

/-- Case analysis on `ComputePairFeatures`: either a degeneracy guard fires and
the result is the zero 4-tuple, or the result is built from the canonical frame. -/
theorem pair_features_cases (p1 n1 p2 n2 : Vec3) :
    ComputePairFeatures p1 n1 p2 n2 = PairFeature.zero ∨
    ∃ c : Canon, c = canonicalize n1 n2 (p2 - p1) (n1.dot (p2 - p1) / (p2 - p1).norm)
        (n2.dot (p2 - p1) / (p2 - p1).norm) ∧
      (p2 - p1).norm ≠ 0 ∧ (c.d.cross c.nref).norm ≠ 0 ∧
      ComputePairFeatures p1 n1 p2 n2 =
        ⟨atan2 ((c.nref.cross (Vec3.smul (1 / (c.d.cross c.nref).norm)
              (c.d.cross c.nref))).dot c.noth) (c.nref.dot c.noth),
          (Vec3.smul (1 / (c.d.cross c.nref).norm) (c.d.cross c.nref)).dot c.noth,
          c.f3, (p2 - p1).norm⟩ := by
  by_cases hd : (p2 - p1).norm = 0
  · exact Or.inl (by simp only [ComputePairFeatures, if_pos hd])
  · by_cases hv : ((canonicalize n1 n2 (p2 - p1) (n1.dot (p2 - p1) / (p2 - p1).norm)
        (n2.dot (p2 - p1) / (p2 - p1).norm)).d.cross
        (canonicalize n1 n2 (p2 - p1) (n1.dot (p2 - p1) / (p2 - p1).norm)
          (n2.dot (p2 - p1) / (p2 - p1).norm)).nref).norm = 0
    · exact Or.inl (by simp only [ComputePairFeatures, if_neg hd, if_pos hv])
    · exact Or.inr ⟨_, rfl, hd, hv, by simp only [ComputePairFeatures, if_neg hd, if_neg hv]⟩

theorem abs_angle_le_one (n d : Vec3) (hn : n.norm = 1) (hd : d.norm ≠ 0) :
    |n.dot d / d.norm| ≤ 1 := by
  have hpos : 0 < d.norm := lt_of_le_of_ne (Vec3.norm_nonneg d) (Ne.symm hd)
  rw [abs_div, abs_of_nonneg (Vec3.norm_nonneg d), div_le_one hpos]
  calc |n.dot d| ≤ n.norm * d.norm := Vec3.abs_dot_le n d
  _ = d.norm := by rw [hn, one_mul]

theorem neg_pi_le_atan2 (y x : ℝ) : -Real.pi ≤ atan2 y x :=
  le_of_lt (Complex.neg_pi_lt_arg _)

theorem atan2_le_pi (y x : ℝ) : atan2 y x ≤ Real.pi :=
  Complex.arg_le_pi _

/-- C10: for unit normals the pair feature satisfies `f1 ∈ [-π, π]`,
`f2 ∈ [-1, 1]`, `f3 ∈ [-1, 1]` and `distance ≥ 0` in exact real arithmetic. -/
theorem pair_features_range (p1 n1 p2 n2 : Vec3) (hn1 : n1.norm = 1) (hn2 : n2.norm = 1) :
    -Real.pi ≤ (ComputePairFeatures p1 n1 p2 n2).f1 ∧
    (ComputePairFeatures p1 n1 p2 n2).f1 ≤ Real.pi ∧
    -1 ≤ (ComputePairFeatures p1 n1 p2 n2).f2 ∧ (ComputePairFeatures p1 n1 p2 n2).f2 ≤ 1 ∧
    -1 ≤ (ComputePairFeatures p1 n1 p2 n2).f3 ∧ (ComputePairFeatures p1 n1 p2 n2).f3 ≤ 1 ∧
    0 ≤ (ComputePairFeatures p1 n1 p2 n2).dist := by
  rcases pair_features_cases p1 n1 p2 n2 with hz | ⟨c, hcc, hd, hv, heq⟩
  · rw [hz]
    refine ⟨?_, ?_, ?_, ?_, ?_, ?_, ?_⟩ <;> norm_num [PairFeature.zero, Real.pi_nonneg]
  · have hnoth : c.noth.norm = 1 := by
      have h := canon_noth_cases n1 n2 (p2 - p1) (n1.dot (p2 - p1) / (p2 - p1).norm)
        (n2.dot (p2 - p1) / (p2 - p1).norm)
      rw [← hcc] at h
      rcases h with h | h <;> rw [h] <;> assumption
    have hvpos : 0 < (c.d.cross c.nref).norm :=
      lt_of_le_of_ne (Vec3.norm_nonneg _) (Ne.symm hv)
    have hvu : (Vec3.smul (1 / (c.d.cross c.nref).norm) (c.d.cross c.nref)).norm = 1 := by
      rw [Vec3.norm_smul_eq, abs_of_nonneg (le_of_lt (one_div_pos.mpr hvpos))]
      field_simp
    have hf2 : |(Vec3.smul (1 / (c.d.cross c.nref).norm) (c.d.cross c.nref)).dot c.noth| ≤ 1 := by
      calc |(Vec3.smul (1 / (c.d.cross c.nref).norm) (c.d.cross c.nref)).dot c.noth|
          ≤ (Vec3.smul (1 / (c.d.cross c.nref).norm) (c.d.cross c.nref)).norm * c.noth.norm :=
            Vec3.abs_dot_le _ _
      _ = 1 := by rw [hvu, hnoth, one_mul]
    have hf3 : |c.f3| ≤ 1 := by
      have h := canon_f3_cases n1 n2 (p2 - p1) (n1.dot (p2 - p1) / (p2 - p1).norm)
        (n2.dot (p2 - p1) / (p2 - p1).norm)
      rw [← hcc] at h
      rcases h with h | h <;> rw [h]
      · rw [abs_neg]
        exact abs_angle_le_one n2 (p2 - p1) hn2 hd
      · exact abs_angle_le_one n1 (p2 - p1) hn1 hd
    rw [heq]
    exact ⟨neg_pi_le_atan2 _ _, atan2_le_pi _ _, (abs_le.mp hf2).1, (abs_le.mp hf2).2,
      (abs_le.mp hf3).1, (abs_le.mp hf3).2, Vec3.norm_nonneg _⟩

/-- The input cloud: parallel lists of positions and normals
(`points_` and `normals_` of `PointCloud`). -/
structure PointCloud where
  points : List Vec3
  normals : List Vec3

/-- Modelled from the spec: `PointCloud::HasNormals` is declared outside the
analysed source unit; per the spec the cloud has normals when the parallel
normals array is present for every point ("parallel arrays of positions and
normals, equal length; absence of normals is a valid but degraded input"). -/
def PointCloud.HasNormals (c : PointCloud) : Bool :=
  decide (0 < c.points.length) && decide (c.normals.length = c.points.length)

/-- Modelled from the spec: the `Feature` container of `Feature.h` (outside the
analysed source unit) is a dense real matrix; `Resize(dim, n)` yields the
zero-filled `dim × n` matrix ("returns a zero-filled 33×N matrix", "column i
stays all-zero").  Entries outside the `dim × n` block are zero as well. -/
structure Feature where
  rows : ℕ
  cols : ℕ
  data : ℕ → ℕ → ℝ

/-- Modelled from the spec: `Feature::Resize` (see `Feature`). -/
def Feature.resize (dim n : ℕ) : Feature := ⟨dim, n, fun _ _ => 0⟩

/-- The clamp applied to each histogram index in `ComputeSPFHFeature`
(`if (h_index < 0) h_index = 0; if (h_index >= 11) h_index = 10;`). -/
def clampBin (h : ℤ) : ℕ :=
  if h < 0 then 0 else if 11 ≤ h then 10 else h.toNat

/-- Bin index for `pf(0)`: `(int)(floor(11 * (pf(0) + M_PI) / (2.0 * M_PI)))`, clamped. -/
def binIndexF1 (v : ℝ) : ℕ := clampBin ⌊11 * (v + Real.pi) / (2 * Real.pi)⌋

/-- Bin index for `pf(1)`: `(int)(floor(11 * (pf(1) + 1.0) * 0.5))`, clamped. -/
def binIndexF2 (v : ℝ) : ℕ := clampBin ⌊11 * (v + 1) * 0.5⌋

/-- Bin index for `pf(2)`: `(int)(floor(11 * (pf(2) + 1.0) * 0.5))`, clamped. -/
def binIndexF3 (v : ℝ) : ℕ := clampBin ⌊11 * (v + 1) * 0.5⌋

/-- The contribution of one neighbor to entry `b` of column `i`: `hist_incr`
is added at row `binIndexF1 pf.f1`, at row `11 + binIndexF2 pf.f2`, and at row
`22 + binIndexF3 pf.f3` (Feature.cpp lines 92-103). -/
def spfhContribution (pf : PairFeature) (incr : ℝ) (b : ℕ) : ℝ :=
  (if b = binIndexF1 pf.f1 then incr else 0)
  + (if b = 11 + binIndexF2 pf.f2 then incr else 0)
  + (if b = 22 + binIndexF3 pf.f3 then incr else 0)

/-- Embedding of `ComputeSPFHFeature` (Feature.cpp lines 71-108).  The KD-tree
is abstracted by `search`, mapping a point index to the index list returned by
`kdtree.Search` (the query point itself first, per the query contract); the
loop `for k in [1, indices.size())` with `+=` accumulation becomes a sum over
the tail of the index list, starting from the zero-resized matrix. -/
def ComputeSPFHFeature (input : PointCloud) (search : ℕ → List ℕ) : Feature :=
  { rows := 33, cols := input.points.length,
    data := fun b i =>
      let indices := search i
      if 1 < indices.length then
        let histIncr : ℝ := 100 / ((indices.length : ℝ) - 1)
        (indices.tail.map (fun k =>
          spfhContribution
            (ComputePairFeatures (input.points.getD i vzero) (input.normals.getD i vzero)
              (input.points.getD k vzero) (input.normals.getD k vzero))
            histIncr b)).sum
      else 0 }

/-- Embedding of `ComputeFPFHFeature` (Feature.cpp lines 112-125).  The
returned Boolean records whether the `PrintDebug` diagnostic was emitted.
The internally computed SPFH feature is bound and, exactly as in the source,
never used for the returned feature. -/
def ComputeFPFHFeature (input : PointCloud) (search : ℕ → List ℕ) : Feature × Bool :=
  let feature := Feature.resize 33 input.points.length
  if input.HasNormals = false then
    (feature, true)
  else
    let _spfh := ComputeSPFHFeature input search
    (feature, false)

/-- Modelled from the spec: the FPFH aggregation formula of §4.4, which is
absent from the source ("the reference implementation ... never performs the
distance-weighted neighbor combination"):
`FPFH(i) = SPFH(i) + (1/k) * Σ_{j ∈ neighbors(i), distance(i,j) > 0} SPFH(j) / distance(i,j)`
with `k` the number of neighbors at strictly positive distance and
`FPFH(i) = SPFH(i)` when `k = 0`; `neighbors(i)` is the query result without
the leading self index. -/
def fpfhSpecColumn (input : PointCloud) (search : ℕ → List ℕ) (i b : ℕ) : ℝ :=
  let spfhData := (ComputeSPFHFeature input search).data
  let d := fun j : ℕ => ((input.points.getD j vzero) - (input.points.getD i vzero)).norm
  let neighbors := (search i).tail
  let k : ℕ := (neighbors.map (fun j => if 0 < d j then 1 else 0)).sum
  if k = 0 then spfhData b i
  else spfhData b i + (1 / (k : ℝ)) * (neighbors.map (fun j =>
    if 0 < d j then spfhData b j / d j else 0)).sum

theorem clampBin_le (h : ℤ) : clampBin h ≤ 10 := by
  unfold clampBin
  split
  · omega
  · split
    · omega
    · omega

theorem binIndexF1_le (v : ℝ) : binIndexF1 v ≤ 10 := clampBin_le _

theorem binIndexF2_le (v : ℝ) : binIndexF2 v ≤ 10 := clampBin_le _

theorem binIndexF3_le (v : ℝ) : binIndexF3 v ≤ 10 := clampBin_le _

/-- C8: every bin index computed in `ComputeSPFHFeature` lies in `[0, 10]`
(the result type is ℕ, so `0 ≤` is implicit); a value exactly at the upper
domain bound maps to bin 10 and one at the lower bound to bin 0; consequently
a neighbor contribution never touches a row at or beyond 33. -/
theorem bin_index_clamped :
    (∀ v : ℝ, binIndexF1 v ≤ 10 ∧ binIndexF2 v ≤ 10 ∧ binIndexF3 v ≤ 10) ∧
    binIndexF1 Real.pi = 10 ∧ binIndexF2 1 = 10 ∧ binIndexF3 1 = 10 ∧
    binIndexF1 (-Real.pi) = 0 ∧ binIndexF2 (-1) = 0 ∧ binIndexF3 (-1) = 0 ∧
    (∀ (pf : PairFeature) (incr : ℝ) (b : ℕ), spfhContribution pf incr (33 + b) = 0) := by
  refine ⟨fun v => ⟨binIndexF1_le v, binIndexF2_le v, binIndexF3_le v⟩, ?_, ?_, ?_, ?_, ?_, ?_, ?_⟩
  · have h : 11 * (Real.pi + Real.pi) / (2 * Real.pi) = 11 := by
      field_simp [Real.pi_ne_zero]
      ring
    rw [binIndexF1, h]
    norm_num [clampBin]
  · rw [binIndexF2, show (11 : ℝ) * (1 + 1) * 0.5 = 11 by norm_num]
    norm_num [clampBin]
  · rw [binIndexF3, show (11 : ℝ) * (1 + 1) * 0.5 = 11 by norm_num]
    norm_num [clampBin]
  · have h : 11 * (-Real.pi + Real.pi) / (2 * Real.pi) = 0 := by
      simp
    rw [binIndexF1, h]
    norm_num [clampBin]
  · rw [binIndexF2, show (11 : ℝ) * (-1 + 1) * 0.5 = 0 by norm_num]
    norm_num [clampBin]
  · rw [binIndexF3, show (11 : ℝ) * (-1 + 1) * 0.5 = 0 by norm_num]
    norm_num [clampBin]
  · intro pf incr b
    have h1 := binIndexF1_le pf.f1
    have h2 := binIndexF2_le pf.f2
    have h3 := binIndexF3_le pf.f3
    rw [spfhContribution, if_neg (by omega), if_neg (by omega), if_neg (by omega)]
    norm_num

/-- C9: when the neighborhood query returns at most the point itself
(`indices.size() <= 1`), `ComputeSPFHFeature` leaves column `i` all-zero. -/
theorem spfh_no_neighbor_zero (input : PointCloud) (search : ℕ → List ℕ) (i : ℕ)
    (h : (search i).length ≤ 1) :
    ∀ b, (ComputeSPFHFeature input search).data b i = 0 := by
  intro b
  simp only [ComputeSPFHFeature]
  rw [if_neg (by omega)]

/-- Both branches of `ComputeFPFHFeature` return the matrix produced by the
initial `Resize(33, N)` call untouched. -/
theorem fpfh_result_resize (input : PointCloud) (search : ℕ → List ℕ) :
    (ComputeFPFHFeature input search).1 = Feature.resize 33 input.points.length := by
  simp only [ComputeFPFHFeature]
  split
  · rfl
  · rfl

/-- C4: for every input cloud, with or without normals, the matrix returned by
`ComputeFPFHFeature` is exactly the one left by the initial `Resize(33, N)`:
the internally computed SPFH matrix is discarded and no entry is ever written. -/
theorem fpfh_never_writes (input : PointCloud) (search : ℕ → List ℕ) :
    (ComputeFPFHFeature input search).1 = Feature.resize 33 input.points.length :=
  fpfh_result_resize input search

/-- C2: on a cloud without normals (any positive point count),
`ComputeFPFHFeature` returns normally with a well-formed all-zero `33 × N`
matrix and emits the diagnostic message. -/
theorem fpfh_no_normals (input : PointCloud) (search : ℕ → List ℕ)
    (h : input.HasNormals = false) (hn : 0 < input.points.length) :
    (ComputeFPFHFeature input search).1.rows = 33 ∧
    (ComputeFPFHFeature input search).1.cols = input.points.length ∧
    (∀ b i, (ComputeFPFHFeature input search).1.data b i = 0) ∧
    (ComputeFPFHFeature input search).2 = true := by
  simp only [ComputeFPFHFeature, h, if_pos rfl]
  exact ⟨rfl, rfl, fun b i => rfl, rfl⟩

theorem sum_finset_list_swap (l : List ℕ) (s : Finset ℕ) (f : ℕ → ℕ → ℝ) :
    ∑ b ∈ s, (l.map (fun k => f k b)).sum = (l.map (fun k => ∑ b ∈ s, f k b)).sum := by
  induction l with
  | nil => simp
  | cons a t ih => simp [List.map_cons, List.sum_cons, Finset.sum_add_distrib, ih]

theorem sum_range_33_split (f : ℕ → ℝ) :
    ∑ b ∈ Finset.range 33, f b =
      (∑ b ∈ Finset.range 11, f b) + (∑ b ∈ Finset.range 11, f (11 + b)) +
        (∑ b ∈ Finset.range 11, f (22 + b)) := by
  simp [Finset.sum_range_succ]
  ring

theorem contribution_sum_first (pf : PairFeature) (incr : ℝ) :
    ∑ b ∈ Finset.range 11, spfhContribution pf incr b = incr := by
  have h1 := binIndexF1_le pf.f1
  have h2 := binIndexF2_le pf.f2
  have h3 := binIndexF3_le pf.f3
  have key : ∀ b ∈ Finset.range 11, spfhContribution pf incr b =
      if b = binIndexF1 pf.f1 then incr else 0 := by
    intro b hb
    rw [Finset.mem_range] at hb
    rw [spfhContribution, if_neg (show ¬ b = 11 + binIndexF2 pf.f2 by omega),
      if_neg (show ¬ b = 22 + binIndexF3 pf.f3 by omega), add_zero, add_zero]
  rw [Finset.sum_congr rfl key, Finset.sum_ite_eq' (Finset.range 11) (binIndexF1 pf.f1)
    (fun _ => incr), if_pos (Finset.mem_range.mpr (by omega))]

theorem contribution_sum_second (pf : PairFeature) (incr : ℝ) :
    ∑ b ∈ Finset.range 11, spfhContribution pf incr (11 + b) = incr := by
  have h1 := binIndexF1_le pf.f1
  have h2 := binIndexF2_le pf.f2
  have h3 := binIndexF3_le pf.f3
  have key : ∀ b ∈ Finset.range 11, spfhContribution pf incr (11 + b) =
      if b = binIndexF2 pf.f2 then incr else 0 := by
    intro b hb
    rw [Finset.mem_range] at hb
    rw [spfhContribution, if_neg (show ¬ 11 + b = binIndexF1 pf.f1 by omega),
      if_neg (show ¬ 11 + b = 22 + binIndexF3 pf.f3 by omega), zero_add, add_zero]
    simp only [add_right_inj]
  rw [Finset.sum_congr rfl key, Finset.sum_ite_eq' (Finset.range 11) (binIndexF2 pf.f2)
    (fun _ => incr), if_pos (Finset.mem_range.mpr (by omega))]

theorem contribution_sum_third (pf : PairFeature) (incr : ℝ) :
    ∑ b ∈ Finset.range 11, spfhContribution pf incr (22 + b) = incr := by
  have h1 := binIndexF1_le pf.f1
  have h2 := binIndexF2_le pf.f2
  have h3 := binIndexF3_le pf.f3
  have key : ∀ b ∈ Finset.range 11, spfhContribution pf incr (22 + b) =
      if b = binIndexF3 pf.f3 then incr else 0 := by
    intro b hb
    rw [Finset.mem_range] at hb
    rw [spfhContribution, if_neg (show ¬ 22 + b = binIndexF1 pf.f1 by omega),
      if_neg (show ¬ 22 + b = 11 + binIndexF2 pf.f2 by omega), zero_add, zero_add]
    simp only [add_right_inj]
  rw [Finset.sum_congr rfl key, Finset.sum_ite_eq' (Finset.range 11) (binIndexF3 pf.f3)
    (fun _ => incr), if_pos (Finset.mem_range.mpr (by omega))]

/-- C3: for a point whose query returns at least one true neighbor, each of
the three 11-bin sub-histograms of its SPFH column sums exactly to 100 (the
per-neighbor increment being `100 / (number of true neighbors)`), hence the
whole 33-entry column sums to 300. -/
theorem spfh_histogram_sums (input : PointCloud) (search : ℕ → List ℕ) (i : ℕ)
    (h : 1 < (search i).length) :
    (∑ b ∈ Finset.range 11, (ComputeSPFHFeature input search).data b i = 100) ∧
    (∑ b ∈ Finset.range 11, (ComputeSPFHFeature input search).data (11 + b) i = 100) ∧
    (∑ b ∈ Finset.range 11, (ComputeSPFHFeature input search).data (22 + b) i = 100) ∧
    (∑ b ∈ Finset.range 33, (ComputeSPFHFeature input search).data b i = 300) := by
  have hne : ((search i).length : ℝ) - 1 ≠ 0 := by
    have h2 : (2 : ℝ) ≤ ((search i).length : ℝ) := by exact_mod_cast h
    linarith
  have hconst : ((search i).tail.map (fun _ : ℕ => 100 / (((search i).length : ℝ) - 1))).sum
      = 100 := by
    rw [List.map_const', List.sum_replicate, List.length_tail, nsmul_eq_mul,
      Nat.cast_sub (le_of_lt h), Nat.cast_one]
    field_simp
  have e1 : ∑ b ∈ Finset.range 11, (ComputeSPFHFeature input search).data b i = 100 := by
    simp only [ComputeSPFHFeature, if_pos h]
    rw [sum_finset_list_swap]
    simp only [contribution_sum_first]
    exact hconst
  have e2 : ∑ b ∈ Finset.range 11, (ComputeSPFHFeature input search).data (11 + b) i = 100 := by
    simp only [ComputeSPFHFeature, if_pos h]
    rw [sum_finset_list_swap]
    simp only [contribution_sum_second]
    exact hconst
  have e3 : ∑ b ∈ Finset.range 11, (ComputeSPFHFeature input search).data (22 + b) i = 100 := by
    simp only [ComputeSPFHFeature, if_pos h]
    rw [sum_finset_list_swap]
    simp only [contribution_sum_third]
    exact hconst
  refine ⟨e1, e2, e3, ?_⟩
  rw [sum_range_33_split, e1, e2, e3]
  norm_num

/-- A concrete two-point cloud: points on the x-axis at distance 1, both with
the unit normal `(0, 0, 1)`. -/
def cloudTwo : PointCloud :=
  ⟨[⟨0, 0, 0⟩, ⟨1, 0, 0⟩], [⟨0, 0, 1⟩, ⟨0, 0, 1⟩]⟩

/-- The neighborhood query for `cloudTwo`: each point first, then the other. -/
def searchTwo : ℕ → List ℕ := fun i => if i = 0 then [0, 1] else [1, 0]

/-- A query that only ever returns the point itself. -/
def searchSelf : ℕ → List ℕ := fun _ => [0]

/-- A one-point cloud without normals. -/
def cloudNoNormals : PointCloud := ⟨[vzero], []⟩

theorem atan2_zero_one : atan2 0 1 = 0 := by
  rw [atan2]
  rw [show (⟨1, 0⟩ : ℂ) = 1 from rfl, Complex.arg_one]

theorem pf_unit_x :
    ComputePairFeatures ⟨0, 0, 0⟩ ⟨0, 0, 1⟩ ⟨1, 0, 0⟩ ⟨0, 0, 1⟩ = ⟨0, 0, 0, 1⟩ := by
  norm_num [ComputePairFeatures, canonicalize, Vec3.sub_def, Vec3.dot, Vec3.cross,
    Vec3.norm, Vec3.smul, atan2_zero_one, lt_self_iff_false]

theorem pf_unit_x_rev :
    ComputePairFeatures ⟨1, 0, 0⟩ ⟨0, 0, 1⟩ ⟨0, 0, 0⟩ ⟨0, 0, 1⟩ = ⟨0, 0, 0, 1⟩ := by
  norm_num [ComputePairFeatures, canonicalize, Vec3.sub_def, Vec3.dot, Vec3.cross,
    Vec3.norm, Vec3.smul, atan2_zero_one, lt_self_iff_false]

theorem floor_eleven_halves : ⌊(11 : ℝ) / 2⌋ = 5 := by
  rw [Int.floor_eq_iff]
  norm_num

theorem binIndexF1_zero : binIndexF1 0 = 5 := by
  rw [binIndexF1, show 11 * ((0 : ℝ) + Real.pi) / (2 * Real.pi) = 11 / 2 by
    field_simp [Real.pi_ne_zero]; ring]
  rw [floor_eleven_halves]
  decide

theorem binIndexF2_zero : binIndexF2 0 = 5 := by
  rw [binIndexF2, show (11 : ℝ) * (0 + 1) * 0.5 = 11 / 2 by norm_num]
  rw [floor_eleven_halves]
  decide

theorem binIndexF3_zero : binIndexF3 0 = 5 := by
  rw [binIndexF3, show (11 : ℝ) * (0 + 1) * 0.5 = 11 / 2 by norm_num]
  rw [floor_eleven_halves]
  decide

theorem spfh_cloudTwo_five_zero : (ComputeSPFHFeature cloudTwo searchTwo).data 5 0 = 100 := by
  simp only [ComputeSPFHFeature, cloudTwo, searchTwo]
  norm_num [spfhContribution, pf_unit_x, binIndexF1_zero, binIndexF2_zero, binIndexF3_zero,
    List.getD]

theorem spfh_cloudTwo_five_one : (ComputeSPFHFeature cloudTwo searchTwo).data 5 1 = 100 := by
  simp only [ComputeSPFHFeature, cloudTwo, searchTwo]
  norm_num [spfhContribution, pf_unit_x_rev, binIndexF1_zero, binIndexF2_zero, binIndexF3_zero,
    List.getD]

/-- C1: `ComputeFPFHFeature` never performs the distance-weighted aggregation:
on `cloudTwo` (which has normals, and where each point has one neighbor at
distance 1) the returned entry at row 5 of column 0 is 0, while the spec
formula `FPFH(i) = SPFH(i) + (1/k) Σ SPFH(j)/distance(i,j)` gives 200 there. -/
theorem fpfh_aggregation_missing :
    (ComputeFPFHFeature cloudTwo searchTwo).1.data 5 0 = 0 ∧
    fpfhSpecColumn cloudTwo searchTwo 0 5 = 200 := by
  constructor
  · rw [fpfh_result_resize]
    rfl
  · have hd1 : ((cloudTwo.points.getD 1 vzero) - (cloudTwo.points.getD 0 vzero)).norm = 1 := by
      norm_num [cloudTwo, List.getD, Vec3.sub_def, Vec3.norm, Vec3.dot]
    have hs : searchTwo 0 = [0, 1] := rfl
    simp only [fpfhSpecColumn, hs, List.tail_cons, List.map_cons, List.map_nil, List.sum_cons,
      List.sum_nil, hd1]
    norm_num [spfh_cloudTwo_five_zero, spfh_cloudTwo_five_one]

/-- Witness for C2 at the concrete normal-less one-point cloud. -/
theorem fpfh_no_normals_witness :
    (cloudNoNormals.HasNormals = false ∧ 0 < cloudNoNormals.points.length) ∧
    (ComputeFPFHFeature cloudNoNormals searchSelf).1.rows = 33 ∧
    (ComputeFPFHFeature cloudNoNormals searchSelf).1.cols = cloudNoNormals.points.length ∧
    (ComputeFPFHFeature cloudNoNormals searchSelf).1.data 0 0 = 0 ∧
    (ComputeFPFHFeature cloudNoNormals searchSelf).2 = true := by
  have h1 : cloudNoNormals.HasNormals = false := rfl
  have h2 : 0 < cloudNoNormals.points.length := by decide
  obtain ⟨hr, hc, hdata, hdiag⟩ := fpfh_no_normals cloudNoNormals searchSelf h1 h2
  exact ⟨⟨h1, h2⟩, hr, hc, hdata 0 0, hdiag⟩

/-- Witness for C3 at the concrete two-point cloud. -/
theorem spfh_histogram_sums_witness :
    1 < (searchTwo 0).length ∧
    ((∑ b ∈ Finset.range 11, (ComputeSPFHFeature cloudTwo searchTwo).data b 0 = 100) ∧
     (∑ b ∈ Finset.range 11, (ComputeSPFHFeature cloudTwo searchTwo).data (11 + b) 0 = 100) ∧
     (∑ b ∈ Finset.range 11, (ComputeSPFHFeature cloudTwo searchTwo).data (22 + b) 0 = 100) ∧
     (∑ b ∈ Finset.range 33, (ComputeSPFHFeature cloudTwo searchTwo).data b 0 = 300)) :=
  ⟨by decide, spfh_histogram_sums cloudTwo searchTwo 0 (by decide)⟩

/-- Witness for C6 at a concrete non-coincident pair with equal angles
(no swap happens and the kept tuple is `(n1, n2, d, angle1)`). -/
theorem canonicalization_rule_witness :
    ((⟨1, 0, 0⟩ : Vec3) = (⟨1, 0, 0⟩ : Vec3) - (⟨0, 0, 0⟩ : Vec3) ∧
      (⟨1, 0, 0⟩ : Vec3).norm ≠ 0 ∧
      (0 : ℝ) = Vec3.dot ⟨0, 0, 1⟩ ⟨1, 0, 0⟩ / Vec3.norm ⟨1, 0, 0⟩) ∧
    (¬ Real.arccos |(0 : ℝ)| > Real.arccos |(0 : ℝ)| →
      canonicalize ⟨0, 0, 1⟩ ⟨0, 0, 1⟩ ⟨1, 0, 0⟩ 0 0 = ⟨⟨0, 0, 1⟩, ⟨0, 0, 1⟩, ⟨1, 0, 0⟩, 0⟩) := by
  have hd : (⟨1, 0, 0⟩ : Vec3) = (⟨1, 0, 0⟩ : Vec3) - (⟨0, 0, 0⟩ : Vec3) := by
    rw [Vec3.sub_def]
    norm_num
  have hnorm : (⟨1, 0, 0⟩ : Vec3).norm ≠ 0 := by
    norm_num [Vec3.norm, Vec3.dot]
  have ha : (0 : ℝ) = Vec3.dot ⟨0, 0, 1⟩ ⟨1, 0, 0⟩ / Vec3.norm ⟨1, 0, 0⟩ := by
    norm_num [Vec3.dot]
  exact ⟨⟨hd, hnorm, ha⟩,
    (canonicalization_rule ⟨0, 0, 0⟩ ⟨0, 0, 1⟩ ⟨1, 0, 0⟩ ⟨0, 0, 1⟩ ⟨1, 0, 0⟩ 0 0
      hd hnorm ha ha).2.1⟩

/-- Witness for C7 at a concrete pair whose reference normal is parallel to the
connecting line. -/
theorem parallel_normal_zero_witness :
    ((1 : ℝ) = Vec3.dot ⟨1, 0, 0⟩ ((⟨1, 0, 0⟩ : Vec3) - ⟨0, 0, 0⟩) /
        ((⟨1, 0, 0⟩ : Vec3) - ⟨0, 0, 0⟩).norm ∧
      ((⟨1, 0, 0⟩ : Vec3) - ⟨0, 0, 0⟩).norm ≠ 0 ∧
      (((canonicalize ⟨1, 0, 0⟩ ⟨1, 0, 0⟩ ((⟨1, 0, 0⟩ : Vec3) - ⟨0, 0, 0⟩) 1 1).d.cross
        (canonicalize ⟨1, 0, 0⟩ ⟨1, 0, 0⟩ ((⟨1, 0, 0⟩ : Vec3) - ⟨0, 0, 0⟩) 1 1).nref).norm = 0)) ∧
    ComputePairFeatures ⟨0, 0, 0⟩ ⟨1, 0, 0⟩ ⟨1, 0, 0⟩ ⟨1, 0, 0⟩ = PairFeature.zero := by
  have ha : (1 : ℝ) = Vec3.dot ⟨1, 0, 0⟩ ((⟨1, 0, 0⟩ : Vec3) - ⟨0, 0, 0⟩) /
      ((⟨1, 0, 0⟩ : Vec3) - ⟨0, 0, 0⟩).norm := by
    norm_num [Vec3.sub_def, Vec3.dot, Vec3.norm]
  have hn : ((⟨1, 0, 0⟩ : Vec3) - ⟨0, 0, 0⟩).norm ≠ 0 := by
    norm_num [Vec3.sub_def, Vec3.norm, Vec3.dot]
  have hv : ((canonicalize ⟨1, 0, 0⟩ ⟨1, 0, 0⟩ ((⟨1, 0, 0⟩ : Vec3) - ⟨0, 0, 0⟩) 1 1).d.cross
      (canonicalize ⟨1, 0, 0⟩ ⟨1, 0, 0⟩ ((⟨1, 0, 0⟩ : Vec3) - ⟨0, 0, 0⟩) 1 1).nref).norm = 0 := by
    norm_num [canonicalize, lt_self_iff_false, Vec3.sub_def, Vec3.cross, Vec3.norm, Vec3.dot]
  exact ⟨⟨ha, hn, hv⟩,
    parallel_normal_zero ⟨0, 0, 0⟩ ⟨1, 0, 0⟩ ⟨1, 0, 0⟩ ⟨1, 0, 0⟩ 1 1 ha ha hn hv⟩

/-- Witness for C9: a query that returns only the point itself leaves the
column entries at zero. -/
theorem spfh_no_neighbor_zero_witness :
    (searchSelf 0).length ≤ 1 ∧ (ComputeSPFHFeature cloudTwo searchSelf).data 5 0 = 0 :=
  ⟨by decide, spfh_no_neighbor_zero cloudTwo searchSelf 0 (by decide) 5⟩

/-- Witness for C10 at a concrete pair of unit-normal oriented points. -/
theorem pair_features_range_witness :
    ((⟨0, 0, 1⟩ : Vec3).norm = 1 ∧ (⟨0, 0, 1⟩ : Vec3).norm = 1) ∧
    (-Real.pi ≤ (ComputePairFeatures ⟨0, 0, 0⟩ ⟨0, 0, 1⟩ ⟨1, 0, 0⟩ ⟨0, 0, 1⟩).f1 ∧
     (ComputePairFeatures ⟨0, 0, 0⟩ ⟨0, 0, 1⟩ ⟨1, 0, 0⟩ ⟨0, 0, 1⟩).f1 ≤ Real.pi ∧
     -1 ≤ (ComputePairFeatures ⟨0, 0, 0⟩ ⟨0, 0, 1⟩ ⟨1, 0, 0⟩ ⟨0, 0, 1⟩).f2 ∧
     (ComputePairFeatures ⟨0, 0, 0⟩ ⟨0, 0, 1⟩ ⟨1, 0, 0⟩ ⟨0, 0, 1⟩).f2 ≤ 1 ∧
     -1 ≤ (ComputePairFeatures ⟨0, 0, 0⟩ ⟨0, 0, 1⟩ ⟨1, 0, 0⟩ ⟨0, 0, 1⟩).f3 ∧
     (ComputePairFeatures ⟨0, 0, 0⟩ ⟨0, 0, 1⟩ ⟨1, 0, 0⟩ ⟨0, 0, 1⟩).f3 ≤ 1 ∧
     0 ≤ (ComputePairFeatures ⟨0, 0, 0⟩ ⟨0, 0, 1⟩ ⟨1, 0, 0⟩ ⟨0, 0, 1⟩).dist) := by
  have hn : (⟨0, 0, 1⟩ : Vec3).norm = 1 := by
    norm_num [Vec3.norm, Vec3.dot]
  exact ⟨⟨hn, hn⟩, pair_features_range ⟨0, 0, 0⟩ ⟨0, 0, 1⟩ ⟨1, 0, 0⟩ ⟨0, 0, 1⟩ hn hn⟩

end Three
